import Mathlib

/-!
Shallow embedding of the QUIC endpoint I/O driver from
`src/quinn/src/endpoint.rs`.

Modelling conventions:
- Machine integers (`usize`) are `Nat`; Rust `saturating_add` is modelled by
  `satAdd` with the explicit `usize` bound, and Rust `saturating_sub` on
  unsigned integers coincides with truncated `Nat` subtraction.
- `Instant` is a `Nat` (seconds); `a.duration_since(b).as_secs()` is `a - b`.
- `FxHashMap` / `HashMap` are association lists with unique keys; `tblInsert`
  replaces an existing binding in place or appends a fresh one, `tblErase`
  removes the binding, matching `HashMap::insert` / `HashMap::remove`.
  Iteration order of the hash maps is unspecified in the source; the list
  order is one admissible order.
- The opaque protocol engine (`proto::Endpoint::handle`, `handle_event`,
  `connect`) and the socket poll results (`poll_recv` / `poll_send`) are
  oracles passed in as parameters: a function for the engine, lists of poll
  outcomes for the sockets.  An exhausted oracle list ends the observed
  behaviour (the pipeline stops with no further effect).
- An mpsc channel is the list of events sent on it so far (send = append).
- `Option` models panics: a `none` result of a pipeline is the `unwrap`
  panic in the source (or the `drain(..n)` out-of-bounds panic).
- The ghost field `engineOffers` records every `(source address, payload)`
  pair passed to the protocol engine's `handle`; it corresponds to no Rust
  state and only makes the routing decisions observable.
- GRO stride peeling turns each received datagram into a list of segments;
  the receive oracles carry the already-peeled segment lists.
-/

/-- Maximum value of a 64-bit `usize`. -/
def USIZE_MAX : Nat := 2 ^ 64 - 1

/-- Rust `usize::saturating_add`. -/
def satAdd (a b : Nat) : Nat := min (a + b) USIZE_MAX

/-- IPv4 socket address (`std::net::SocketAddrV4`): ip as a 32-bit value, port. -/
structure SockV4 where
  ip : Nat
  port : Nat
  deriving DecidableEq, Repr

/-- IPv6 socket address (`std::net::SocketAddrV6`). -/
structure SockV6 where
  ip : Nat
  port : Nat
  flowinfo : Nat
  scope_id : Nat
  deriving DecidableEq, Repr

/-- `std::net::SocketAddr`. -/
inductive SocketAddr where
  | v4 (a : SockV4)
  | v6 (a : SockV6)
  deriving DecidableEq, Repr

/-- `SocketAddr::is_ipv6`. -/
def SocketAddr.is_ipv6 : SocketAddr → Bool
  | .v4 _ => false
  | .v6 _ => true

/-- `Ipv4Addr::to_ipv6_mapped`: embeds a 32-bit IPv4 address as `::ffff:a.b.c.d`. -/
def to_ipv6_mapped (ip : Nat) : Nat := 0xffff * 2 ^ 32 + ip % 2 ^ 32

/-- `ensure_ipv6` from endpoint.rs: maps an IPv4 address into IPv6 space. -/
def ensure_ipv6 : SocketAddr → SockV6
  | .v6 x => x
  | .v4 x => ⟨to_ipv6_mapped x.ip, x.port, 0, 0⟩

/-- `udp::EcnCodepoint`. -/
inductive UdpEcn where
  | ect0
  | ect1
  | ce
  deriving DecidableEq, Repr

/-- `proto::EcnCodepoint`. -/
inductive ProtoEcn where
  | ect0
  | ect1
  | ce
  deriving DecidableEq, Repr

/-- `udp_ecn` from endpoint.rs. -/
def udp_ecn : ProtoEcn → UdpEcn
  | .ect0 => .ect0
  | .ect1 => .ect1
  | .ce => .ce

/-- `proto_ecn` from endpoint.rs. -/
def proto_ecn : UdpEcn → ProtoEcn
  | .ect0 => .ect0
  | .ect1 => .ect1
  | .ce => .ce

/-- `udp::Transmit`: payload bytes are a list of byte values. -/
structure Transmit where
  destination : SocketAddr
  ecn : Option UdpEcn
  contents : List Nat
  segment_size : Option Nat
  src_ip : Option Nat
  deriving DecidableEq, Repr

/-- `proto::Transmit`. -/
structure ProtoTransmit where
  destination : SocketAddr
  ecn : Option ProtoEcn
  contents : List Nat
  segment_size : Option Nat
  src_ip : Option Nat
  deriving DecidableEq, Repr

/-- `udp_transmit` from endpoint.rs: field-for-field conversion. -/
def udp_transmit (t : ProtoTransmit) : Transmit :=
  { destination := t.destination
    ecn := t.ecn.map udp_ecn
    contents := t.contents
    segment_size := t.segment_size
    src_ip := t.src_ip }

/-- `upstream_udp_transmit` from endpoint.rs. -/
def upstream_udp_transmit (addr : SocketAddr) (data : List Nat) : Transmit :=
  { contents := data
    destination := addr
    ecn := none
    segment_size := none
    src_ip := none }

/-- Association-list lookup, the model of `HashMap::get` / `get_mut`. -/
def tblLookup {α β : Type} [DecidableEq α] : List (α × β) → α → Option β
  | [], _ => none
  | (k', v) :: rest, k => if k' = k then some v else tblLookup rest k

/-- Association-list insert, the model of `HashMap::insert`: replaces an
existing binding in place, otherwise appends. -/
def tblInsert {α β : Type} [DecidableEq α] : List (α × β) → α → β → List (α × β)
  | [], k, v => [(k, v)]
  | (k', v') :: rest, k, v =>
    if k' = k then (k, v) :: rest else (k', v') :: tblInsert rest k v

/-- Association-list removal, the model of `HashMap::remove` (keys are unique
in a `HashMap`, so removing every binding for the key is equivalent). -/
def tblErase {α β : Type} [DecidableEq α] (l : List (α × β)) (k : α) : List (α × β) :=
  l.filter fun p => decide (p.1 ≠ k)

/-- Key membership, the model of `HashMap::contains_key`. -/
def tblContains {α β : Type} [DecidableEq α] (l : List (α × β)) (k : α) : Bool :=
  (tblLookup l k).isSome

/-- `JlsForwardConnection` from endpoint.rs.  The owned `upstream_socket`,
the scratch `from_upstream` buffer and the per-entry `udp_state` are runtime
resources whose behaviour enters through the poll oracles. -/
structure JlsForwardConnection where
  upstream_addr : SocketAddr
  to_upstream : List Transmit
  active_time : Nat
  deriving DecidableEq, Repr

/-- `JlsState` from endpoint.rs: the forward table. -/
structure JlsState where
  upstream_connections : List (SocketAddr × JlsForwardConnection)
  deriving DecidableEq, Repr

/-- `ConnectionEvent` from the crate root (events sent to a connection worker). -/
inductive ConnectionEvent where
  | close (error_code : Nat) (reason : List Nat)
  | proto (e : Nat)
  | ping
  deriving DecidableEq, Repr

/-- A `proto` event arriving from a connection worker; `drained` is the value
of `is_drained()`, `id` identifies the event for the `handle_event` oracle. -/
structure ProtoEvent where
  drained : Bool
  id : Nat
  deriving DecidableEq, Repr

/-- `EndpointEvent` from the crate root (worker-to-endpoint events). -/
inductive EndpointEvent where
  | proto (e : ProtoEvent)
  | transmit (t : ProtoTransmit)
  deriving DecidableEq, Repr

/-- `ConnectionSet` from endpoint.rs.  `senders` maps a connection handle to
its outbound channel, modelled as the list of events sent so far.  The
`sender` field (the clonable worker-to-endpoint sender) is channel plumbing
with no endpoint-visible state and is omitted. -/
structure ConnectionSet where
  senders : List (Nat × List ConnectionEvent)
  close : Option (Nat × List Nat)
  deriving DecidableEq, Repr

/-- `ConnectionSet::is_empty`. -/
def ConnectionSet.is_empty (cs : ConnectionSet) : Bool :=
  cs.senders.isEmpty

/-- `ConnectionSet::insert`: creates the fresh channel, pre-loads the Close
event when `close` is set, and stores the sender.  Returns the new set and
the initial contents of the freshly created channel. -/
def ConnectionSet.insert (cs : ConnectionSet) (handle : Nat) :
    ConnectionSet × List ConnectionEvent :=
  let chan0 : List ConnectionEvent :=
    match cs.close with
    | some (error_code, reason) => [ConnectionEvent.close error_code reason]
    | none => []
  ({ cs with senders := tblInsert cs.senders handle chan0 }, chan0)

/-- One received datagram segment after GRO stride peeling, with its
`RecvMeta` routing data. -/
structure Segment where
  addr : SocketAddr
  dstIp : Option Nat
  ecn : Option UdpEcn
  buf : List Nat
  deriving DecidableEq, Repr

/-- `proto::DatagramEvent`, the protocol engine's routing decision.  The
`conn` values are represented by the data the driver reads from them:
`remote_address()` and `crypto_session().jls_upstream_addr()`. -/
inductive DatagramEvent where
  | newConnection (ch : Nat)
  | connectionEvent (ch : Nat) (event : Nat)
  | response (t : ProtoTransmit)
  | newForward (ch : Nat) (remoteAddress : SocketAddr)
      (jlsUpstreamAddr : Option SocketAddr) (clientHello : List Nat)
  deriving DecidableEq, Repr

/-- `State` from endpoint.rs.  `socket`, `udp_state`, `recv_buf`, the work
limiters, the waker and the runtime are runtime resources; their behaviour
enters through the oracles.  `engineOffers` is a ghost history of the calls
made to the protocol engine's `handle`. -/
structure State where
  outgoing : List Transmit
  incoming : List Nat
  connections : ConnectionSet
  ref_count : Nat
  driver_lost : Bool
  ipv6 : Bool
  transmit_queue_contents_len : Nat
  jls_state : JlsState
  engineOffers : List (SocketAddr × List Nat)
  deriving DecidableEq, Repr

/-- `JlsState::handle_jls_forward`: look the source address up in the
forward table; on a hit, append the segment (as a transmit to the entry's
upstream address) to the entry's pending queue and report `true`. -/
def JlsState.handle_jls_forward (s : JlsState) (buf : List Nat) (remote : SocketAddr) :
    Bool × JlsState :=
  match tblLookup s.upstream_connections remote with
  | some conn =>
    let trans := upstream_udp_transmit conn.upstream_addr buf
    (true,
      ⟨tblInsert s.upstream_connections remote
        { conn with to_upstream := conn.to_upstream ++ [trans] }⟩)
  | none => (false, s)

/-- The body of `State::drive_recv` for one peeled segment: forward-table
lookup first, then the protocol engine decision.  `none` is the
`senders.get_mut(&handle).unwrap()` panic. -/
def processSegment (engine : Segment → Option DatagramEvent) (maxQ now : Nat)
    (seg : Segment) (st : State) : Option State :=
  match st.jls_state.handle_jls_forward seg.buf seg.addr with
  | (true, js) => some { st with jls_state := js }
  | (false, _) =>
    let st1 := { st with engineOffers := st.engineOffers ++ [(seg.addr, seg.buf)] }
    match engine seg with
    | none => some st1
    | some (.newConnection ch) =>
      let (cs, _) := st1.connections.insert ch
      some { st1 with connections := cs, incoming := st1.incoming ++ [ch] }
    | some (.connectionEvent ch ev) =>
      match tblLookup st1.connections.senders ch with
      | none => none
      | some chan =>
        some { st1 with connections :=
          { st1.connections with
            senders := tblInsert st1.connections.senders ch (chan ++ [.proto ev]) } }
    | some (.response t) =>
      if st1.transmit_queue_contents_len < maxQ then
        some { st1 with
          outgoing := st1.outgoing ++ [udp_transmit t]
          transmit_queue_contents_len :=
            satAdd st1.transmit_queue_contents_len t.contents.length }
      else
        some st1
    | some (.newForward _ch remoteAddress jlsUp clientHello) =>
      match jlsUp with
      | none => some st1
      | some upstream_addr =>
        let jls_conn : JlsForwardConnection :=
          { upstream_addr := upstream_addr
            to_upstream := [upstream_udp_transmit upstream_addr clientHello]
            active_time := now }
        some { st1 with jls_state :=
          ⟨tblInsert st1.jls_state.upstream_connections remoteAddress jls_conn⟩ }

/-- Sequential processing of the segments of one `poll_recv` batch. -/
def processSegments (engine : Segment → Option DatagramEvent) (maxQ now : Nat) :
    List Segment → State → Option State
  | [], st => some st
  | s :: rest, st =>
    match processSegment engine maxQ now s st with
    | none => none
    | some st2 => processSegments engine maxQ now rest st2

/-- Outcome of one `poll_recv` on the downstream socket. -/
inductive DRecvPoll where
  | ready (segs : List Segment)
  | pending
  | errReset
  | err (e : Nat)
  deriving DecidableEq, Repr

/-- `State::drive_recv`: loop over socket polls; `ConnectionReset` is
swallowed (and, as in the source, skips the work-limiter check); `Pending`
breaks with `Ok(false)`; the limiter saying no breaks with `Ok(true)`. -/
def drive_recv (engine : Segment → Option DatagramEvent) (maxQ now : Nat) :
    List DRecvPoll → List Bool → State → Option (Except Nat Bool × State)
  | [], _, st => some (.ok false, st)
  | .pending :: _, _, st => some (.ok false, st)
  | .errReset :: rest, allows, st => drive_recv engine maxQ now rest allows st
  | .err e :: _, _, st => some (.error e, st)
  | .ready segs :: rest, allows, st =>
    match processSegments engine maxQ now segs st with
    | none => none
    | some st2 =>
      match allows with
      | false :: _ => some (.ok true, st2)
      | true :: arest => drive_recv engine maxQ now rest arest st2
      | [] => drive_recv engine maxQ now rest [] st2

/-- Outcome of one `poll_send` on the downstream socket. -/
inductive SendPoll where
  | ready (n : Nat)
  | pending
  | err (e : Nat)
  deriving DecidableEq, Repr

/-- Sum of the payload lengths of a list of transmits. -/
def sumLens (l : List Transmit) : Nat :=
  (l.map fun t => t.contents.length).sum

/-- `State::drive_send`: each loop iteration first checks for an empty
queue, then the send limiter, then polls; a successful send of `n`
transmits drains them and subtracts their total payload length
(`saturating_sub` is `Nat` subtraction).  `drain(..n)` with `n` beyond the
queue length is the Rust panic, hence `none`. -/
def drive_send : List (Bool × SendPoll) → State → Option (Except Nat Bool × State)
  | [], st => some (.ok false, st)
  | (allow, p) :: rest, st =>
    if st.outgoing.isEmpty then some (.ok false, st)
    else if !allow then some (.ok true, st)
    else
      match p with
      | .pending => some (.ok false, st)
      | .err e => some (.error e, st)
      | .ready n =>
        if n ≤ st.outgoing.length then
          drive_send rest
            { st with
              outgoing := st.outgoing.drop n
              transmit_queue_contents_len :=
                st.transmit_queue_contents_len - sumLens (st.outgoing.take n) }
        else none

/-- `State::handle_events`: drain up to `IO_LOOP_BOUND` worker events.  A
drained Proto event removes the sender before the engine is consulted; a
follow-up event for a now-absent sender is the `unwrap` panic (`none`). -/
def handle_events (handleEvent : Nat → ProtoEvent → Option Nat) :
    Nat → List (Nat × EndpointEvent) → State → Option (Bool × State)
  | 0, _, st => some (true, st)
  | Nat.succ _, [], st => some (false, st)
  | Nat.succ b, (ch, ev) :: rest, st =>
    match ev with
    | .proto e =>
      let st1 :=
        if e.drained then
          { st with connections :=
            { st.connections with senders := tblErase st.connections.senders ch } }
        else st
      match handleEvent ch e with
      | none => handle_events handleEvent b rest st1
      | some f =>
        match tblLookup st1.connections.senders ch with
        | none => none
        | some chan =>
          handle_events handleEvent b rest
            { st1 with connections :=
              { st1.connections with
                senders := tblInsert st1.connections.senders ch (chan ++ [.proto f]) } }
    | .transmit t =>
      handle_events handleEvent b rest
        { st with
          outgoing := st.outgoing ++ [udp_transmit t]
          transmit_queue_contents_len :=
            satAdd st.transmit_queue_contents_len t.contents.length }

/-- Outcome of one `poll_recv` on an upstream socket; `ready` carries the
peeled segments of the batch. -/
inductive URecvPoll where
  | ready (segs : List (List Nat))
  | pending
  | errReset
  | err (e : Nat)
  deriving DecidableEq, Repr

/-- Relay one upstream batch: each segment is admitted to `outgoing`
(destined for the entry's client address) only under the queue cap. -/
def urSegs (maxQ : Nat) (remote : SocketAddr) :
    List (List Nat) → List Transmit → Nat → List Transmit × Nat
  | [], outg, tq => (outg, tq)
  | seg :: rest, outg, tq =>
    if tq < maxQ then
      let trans : Transmit :=
        { destination := remote
          contents := seg
          ecn := none
          segment_size := none
          src_ip := none }
      urSegs maxQ remote rest (outg ++ [trans]) (satAdd tq seg.length)
    else
      urSegs maxQ remote rest outg tq

/-- The per-entry recv loop of `State::upstream_recv`.  Returns the updated
entry, queue, counter, the error (if any) and whether the entry was pushed
onto `to_remove`. -/
def urEntry (maxQ now : Nat) (remote : SocketAddr) :
    List URecvPoll → JlsForwardConnection → List Transmit → Nat →
    JlsForwardConnection × List Transmit × Nat × Option Nat × Bool
  | [], conn, outg, tq => (conn, outg, tq, none, false)
  | .ready segs :: rest, conn, outg, tq =>
    let (outg2, tq2) := urSegs maxQ remote segs outg tq
    urEntry maxQ now remote rest { conn with active_time := now } outg2 tq2
  | .pending :: _, conn, outg, tq =>
    (conn, outg, tq, none, decide (now - conn.active_time > 30))
  | .errReset :: rest, conn, outg, tq => urEntry maxQ now remote rest conn outg tq
  | .err e :: _, conn, outg, tq => (conn, outg, tq, some e, true)

/-- Iterate `upstream_recv` over the table entries, threading the outgoing
queue, the counter, the last error and the `to_remove` marks. -/
def urGo (maxQ now : Nat) :
    List (SocketAddr × JlsForwardConnection) → List (List URecvPoll) →
    List Transmit → Nat → Option Nat →
    List (SocketAddr × JlsForwardConnection) × List Transmit × Nat × Option Nat ×
      List SocketAddr
  | [], _, outg, tq, le => ([], outg, tq, le, [])
  | (remote, conn) :: rest, polls, outg, tq, le =>
    let r := urEntry maxQ now remote (polls.headD []) conn outg tq
    let le2 := match r.2.2.2.1 with
      | some e => some e
      | none => le
    let rec2 := urGo maxQ now rest polls.tail r.2.1 r.2.2.1 le2
    ((remote, r.1) :: rec2.1, rec2.2.1, rec2.2.2.1, rec2.2.2.2.1,
      (if r.2.2.2.2 then [remote] else []) ++ rec2.2.2.2.2)

/-- `State::upstream_recv`.  The source collects `to_remove` but the removal
loop is commented out (`TODO remove old connections`), so the marks are
discarded and no entry is removed here. -/
def upstream_recv (maxQ now : Nat) (polls : List (List URecvPoll)) (st : State) :
    Except Nat Bool × State :=
  let r := urGo maxQ now st.jls_state.upstream_connections polls st.outgoing
    st.transmit_queue_contents_len none
  let st2 := { st with
    jls_state := ⟨r.1⟩
    outgoing := r.2.1
    transmit_queue_contents_len := r.2.2.1 }
  match r.2.2.2.1 with
  | some e => (.error e, st2)
  | none => (.ok false, st2)

/-- Outcome of one `poll_send` on an upstream socket. -/
inductive USendPoll where
  | ready (n : Nat)
  | pending
  | err (e : Nat)
  deriving DecidableEq, Repr

/-- The per-entry send loop of `State::upstream_send`.  The `Pending`
eviction test is the source's literal `active_time.duration_since(active_time)
.as_secs() > 30`, a self-comparison that is always zero.  `none` is the
`drain(..n)` panic. -/
def usEntry (now : Nat) :
    List USendPoll → JlsForwardConnection →
    Option (JlsForwardConnection × Option Nat × Bool)
  | [], conn => some (conn, none, false)
  | .ready n :: rest, conn =>
    if conn.to_upstream.isEmpty then some (conn, none, false)
    else if n ≤ conn.to_upstream.length then
      usEntry now rest { conn with to_upstream := conn.to_upstream.drop n, active_time := now }
    else none
  | .pending :: _, conn =>
    if conn.to_upstream.isEmpty then some (conn, none, false)
    else some (conn, none, decide (conn.active_time - conn.active_time > 30))
  | .err e :: _, conn =>
    if conn.to_upstream.isEmpty then some (conn, none, false)
    else some (conn, some e, true)

/-- Iterate `upstream_send` over the table entries, collecting the updated
entries, the last error and the `to_remove` list. -/
def usGo (now : Nat) :
    List (SocketAddr × JlsForwardConnection) → List (List USendPoll) →
    Option (List (SocketAddr × JlsForwardConnection) × Option Nat × List SocketAddr)
  | [], _ => some ([], none, [])
  | (remote, conn) :: rest, polls =>
    match usEntry now (polls.headD []) conn with
    | none => none
    | some (conn2, err2, mark) =>
      match usGo now rest polls.tail with
      | none => none
      | some (tbl, le, rem) =>
        some ((remote, conn2) :: tbl,
          (match le with
           | some e => some e
           | none => err2),
          (if mark then [remote] else []) ++ rem)

/-- Remove every marked key from the table. -/
def removeAll (tbl : List (SocketAddr × JlsForwardConnection))
    (ks : List SocketAddr) : List (SocketAddr × JlsForwardConnection) :=
  ks.foldl (fun t k => tblErase t k) tbl

/-- `State::upstream_send`: drive each entry, then commit the evictions
(this sweep, unlike the one in `upstream_recv`, is live code). -/
def upstream_send (now : Nat) (polls : List (List USendPoll)) (st : State) :
    Option (Except Nat Bool × State) :=
  match usGo now st.jls_state.upstream_connections polls with
  | none => none
  | some (tbl, le, rem) =>
    let st2 := { st with jls_state := ⟨removeAll tbl rem⟩ }
    match le with
    | some e => some (.error e, st2)
    | none => some (.ok false, st2)

/-- The oracles of one driver poll: the protocol engine, the worker events
and the socket poll outcomes, plus the crate constants
`MAX_TRANSMIT_QUEUE_CONTENTS_LEN` (`maxQ`) and `IO_LOOP_BOUND`
(`ioLoopBound`), which live outside this file's source and are therefore
parameters. -/
structure Oracles where
  engine : Segment → Option DatagramEvent
  handleEvent : Nat → ProtoEvent → Option Nat
  recvPolls : List DRecvPoll
  recvAllows : List Bool
  events : List (Nat × EndpointEvent)
  ioLoopBound : Nat
  sendIters : List (Bool × SendPoll)
  urPolls : List (List URecvPoll)
  usPolls : List (List USendPoll)
  now : Nat
  maxQ : Nat

instance {ε α : Type} [DecidableEq ε] [DecidableEq α] : DecidableEq (Except ε α) := fun x y =>
  match x, y with
  | .ok a, .ok b => decidable_of_iff (a = b) (by simp)
  | .error a, .error b => decidable_of_iff (a = b) (by simp)
  | .ok _, .error _ => isFalse (by intro h; exact Except.noConfusion h)
  | .error _, .ok _ => isFalse (by intro h; exact Except.noConfusion h)

/-- Result of `EndpointDriver::poll`. -/
inductive DriverPoll where
  | ready (r : Except Nat Unit)
  | pending
  deriving DecidableEq, Repr

/-- `EndpointDriver::poll`: the five pipelines in source order, each
fallible one short-circuiting to `Poll::Ready(Err(e))` through `?`, then the
termination test `ref_count == 0 && connections.is_empty()`. -/
def driver_poll (o : Oracles) (st : State) : Option (DriverPoll × State) :=
  match drive_recv o.engine o.maxQ o.now o.recvPolls o.recvAllows st with
  | none => none
  | some (.error e, st1) => some (.ready (.error e), st1)
  | some (.ok _, st1) =>
    match handle_events o.handleEvent o.ioLoopBound o.events st1 with
    | none => none
    | some (_, st2) =>
      match drive_send o.sendIters st2 with
      | none => none
      | some (.error e, st3) => some (.ready (.error e), st3)
      | some (.ok _, st3) =>
        match upstream_recv o.maxQ o.now o.urPolls st3 with
        | (.error e, st4) => some (.ready (.error e), st4)
        | (.ok _, st4) =>
          match upstream_send o.now o.usPolls st4 with
          | none => none
          | some (.error e, st5) => some (.ready (.error e), st5)
          | some (.ok _, st5) =>
            if st5.ref_count = 0 ∧ st5.connections.is_empty = true then
              some (.ready (.ok ()), st5)
            else some (.pending, st5)

/-- `Endpoint::close`: record the close pair and send Close on every
registered channel (send errors ignored). -/
def State.close (st : State) (error_code : Nat) (reason : List Nat) : State :=
  { st with connections :=
    { senders := st.connections.senders.map
        fun p => (p.1, p.2 ++ [ConnectionEvent.close error_code reason])
      close := some (error_code, reason) } }

/-- `ConnectError` from the proto crate; `other` stands for the protocol
engine's own connect errors, propagated unchanged. -/
inductive ConnectError where
  | endpointStopping
  | invalidRemoteAddress (a : SocketAddr)
  | noDefaultClientConfig
  | other (e : Nat)
  deriving DecidableEq, Repr

/-- `Endpoint::connect_with`: the guard order of the source (driver lost,
then address family, then the engine), address mapping under `ipv6`, and
registry insertion on success.  The returned `Connecting` is represented by
its handle. -/
def connect_with (engineConnect : SocketAddr → Except ConnectError Nat)
    (st : State) (addr : SocketAddr) : Except ConnectError (Nat × State) :=
  if st.driver_lost then .error .endpointStopping
  else if addr.is_ipv6 && !st.ipv6 then .error (.invalidRemoteAddress addr)
  else
    let addr2 := if st.ipv6 then SocketAddr.v6 (ensure_ipv6 addr) else addr
    match engineConnect addr2 with
    | .error e => .error e
    | .ok ch =>
      let r := st.connections.insert ch
      .ok (ch, { st with connections := r.1 })

/-- `Endpoint::connect`: requires a default client config. -/
def connect (default_client_config : Option Unit)
    (engineConnect : SocketAddr → Except ConnectError Nat)
    (st : State) (addr : SocketAddr) : Except ConnectError (Nat × State) :=
  match default_client_config with
  | none => .error .noDefaultClientConfig
  | some _ => connect_with engineConnect st addr

/-! ### Association-list lemmas -/

theorem tblLookup_insert_self {α β : Type} [DecidableEq α]
    (l : List (α × β)) (k : α) (v : β) :
    tblLookup (tblInsert l k v) k = some v := by
  induction l with
  | nil => simp [tblInsert, tblLookup]
  | cons p rest ih =>
    obtain ⟨k', v'⟩ := p
    by_cases h : k' = k
    · simp [tblInsert, h, tblLookup]
    · simp [tblInsert, h, tblLookup, ih]

theorem tblInsert_insert_self {α β : Type} [DecidableEq α]
    (l : List (α × β)) (k : α) (v w : β) :
    tblInsert (tblInsert l k v) k w = tblInsert l k w := by
  induction l with
  | nil => simp [tblInsert]
  | cons p rest ih =>
    obtain ⟨k', v'⟩ := p
    by_cases h : k' = k
    · simp [tblInsert, h]
    · simp [tblInsert, h, ih]

theorem tblInsert_lookup_self {α β : Type} [DecidableEq α]
    (l : List (α × β)) (k : α) (v : β) (h : tblLookup l k = some v) :
    tblInsert l k v = l := by
  induction l with
  | nil => simp [tblLookup] at h
  | cons p rest ih =>
    obtain ⟨k', v'⟩ := p
    by_cases hk : k' = k
    · simp [tblLookup, hk] at h
      simp [tblInsert, hk, h]
    · simp [tblLookup, hk] at h
      simp [tblInsert, hk, ih h]

theorem tblLookup_erase_self {α β : Type} [DecidableEq α]
    (l : List (α × β)) (k : α) :
    tblLookup (tblErase l k) k = none := by
  induction l with
  | nil => simp [tblErase, tblLookup]
  | cons p rest ih =>
    obtain ⟨k', v'⟩ := p
    by_cases h : k' = k
    · simpa [tblErase, h] using ih
    · simpa [tblErase, tblLookup, h] using ih

/-! ### Payload-length bookkeeping lemmas -/

@[simp] theorem sumLens_nil : sumLens [] = 0 := rfl

@[simp] theorem sumLens_cons (t : Transmit) (l : List Transmit) :
    sumLens (t :: l) = t.contents.length + sumLens l := by
  simp [sumLens]

@[simp] theorem sumLens_append (a b : List Transmit) :
    sumLens (a ++ b) = sumLens a + sumLens b := by
  simp [sumLens]

theorem satAdd_eq_add {a b : Nat} (h : a + b ≤ USIZE_MAX) : satAdd a b = a + b := by
  simp [satAdd, min_eq_left h]

/-! ### Claim C1: routing of received segments -/

/-- Processing a run of segments that all come from an address with a
forward-table entry appends them, in arrival order, to that entry's pending
queue as transmits to the entry's upstream address, and leaves every other
part of the state (in particular the ghost log of protocol-engine offers)
unchanged. -/
theorem processSegments_forward_order (engine : Segment → Option DatagramEvent)
    (maxQ now : Nat) (a : SocketAddr) (segs : List Segment) :
    ∀ (st : State) (conn : JlsForwardConnection),
      tblLookup st.jls_state.upstream_connections a = some conn →
      (∀ s ∈ segs, s.addr = a) →
      processSegments engine maxQ now segs st =
        some { st with jls_state :=
          ⟨tblInsert st.jls_state.upstream_connections a
            { conn with to_upstream := (conn.to_upstream ++
              segs.map (fun s => upstream_udp_transmit conn.upstream_addr s.buf)) }⟩ } := by
  induction segs with
  | nil =>
    intro st conn hconn _
    simp only [processSegments, List.map_nil, List.append_nil]
    rw [tblInsert_lookup_self _ _ _ hconn]
  | cons s rest ih =>
    intro st conn hconn hall
    have hs : s.addr = a := hall s (by simp)
    have hstep : processSegment engine maxQ now s st =
        some { st with jls_state :=
          ⟨tblInsert st.jls_state.upstream_connections a
            { conn with to_upstream := conn.to_upstream ++
              [upstream_udp_transmit conn.upstream_addr s.buf] }⟩ } := by
      simp [processSegment, JlsState.handle_jls_forward, hs, hconn]
    rw [processSegments, hstep]
    dsimp only
    rw [ih _ { conn with to_upstream := conn.to_upstream ++
          [upstream_udp_transmit conn.upstream_addr s.buf] }
        (tblLookup_insert_self _ a _)
        (fun s hm => hall s (by simp [hm]))]
    simp [tblInsert_insert_self, List.append_assoc]

/-- C1. A segment whose source address is a key of the forward table is
appended to that entry's pending queue as a transmit to the entry's
upstream address and is never offered to the protocol engine (the ghost
offer log is unchanged); a segment from an address not in the table is
offered to the engine exactly once, hence at most once; and a run of
segments from a forwarded address lands in the pending queue in arrival
order. -/
theorem c1_forward_routing (engine : Segment → Option DatagramEvent)
    (maxQ now : Nat) (seg : Segment) (st : State) :
    (∀ conn, tblLookup st.jls_state.upstream_connections seg.addr = some conn →
      processSegment engine maxQ now seg st =
        some { st with jls_state :=
          ⟨tblInsert st.jls_state.upstream_connections seg.addr
            { conn with to_upstream := conn.to_upstream ++
              [upstream_udp_transmit conn.upstream_addr seg.buf] }⟩ })
    ∧ (tblLookup st.jls_state.upstream_connections seg.addr = none →
      ∀ st2, processSegment engine maxQ now seg st = some st2 →
        st2.engineOffers = st.engineOffers ++ [(seg.addr, seg.buf)])
    ∧ (∀ a conn (segs : List Segment),
        tblLookup st.jls_state.upstream_connections a = some conn →
        (∀ s ∈ segs, s.addr = a) →
        processSegments engine maxQ now segs st =
          some { st with jls_state :=
            ⟨tblInsert st.jls_state.upstream_connections a
              { conn with to_upstream := (conn.to_upstream ++
                segs.map (fun s => upstream_udp_transmit conn.upstream_addr s.buf)) }⟩ }) := by
  refine ⟨?_, ?_, ?_⟩
  · intro conn hconn
    simp [processSegment, JlsState.handle_jls_forward, hconn]
  · intro hmiss st2 h
    unfold processSegment at h
    rw [show st.jls_state.handle_jls_forward seg.buf seg.addr = (false, st.jls_state) from by
      simp [JlsState.handle_jls_forward, hmiss]] at h
    rcases hE : engine seg with _ | de
    · rw [hE] at h
      simp only [Option.some.injEq] at h
      subst h
      rfl
    · rw [hE] at h
      cases de with
      | newConnection ch =>
        simp only [ConnectionSet.insert, Option.some.injEq] at h
        subst h
        rfl
      | connectionEvent ch ev =>
        rcases hL : tblLookup st.connections.senders ch with _ | chan
        · simp only [hL] at h
          exact Option.noConfusion h
        · simp only [hL, Option.some.injEq] at h
          subst h
          rfl
      | response t =>
        by_cases hq : st.transmit_queue_contents_len < maxQ
        · simp only [hq, if_true, Option.some.injEq] at h
          subst h
          rfl
        · simp only [hq, if_false, Option.some.injEq] at h
          subst h
          rfl
      | newForward ch ra up hello =>
        rcases up with _ | ua
        · simp only [Option.some.injEq] at h
          subst h
          rfl
        · simp only [Option.some.injEq] at h
          subst h
          rfl
  · intro a conn segs hconn hall
    exact processSegments_forward_order engine maxQ now a segs st conn hconn hall

def w1addr : SocketAddr := .v4 ⟨1, 1⟩
def w1up : SocketAddr := .v4 ⟨9, 9⟩
def w1conn : JlsForwardConnection := ⟨w1up, [], 0⟩
def w1st : State :=
  { outgoing := []
    incoming := []
    connections := ⟨[], none⟩
    ref_count := 1
    driver_lost := false
    ipv6 := false
    transmit_queue_contents_len := 0
    jls_state := ⟨[(w1addr, w1conn)]⟩
    engineOffers := [] }
def w1seg : Segment := ⟨w1addr, none, none, [1, 2, 3]⟩
def w1seg2 : Segment := ⟨.v4 ⟨2, 2⟩, none, none, [7]⟩
def w1eng : Segment → Option DatagramEvent := fun _ => none

/-- Witness for C1 at a concrete forwarded segment, a concrete non-forwarded
segment and a concrete two-segment run. -/
theorem c1_forward_routing_witness :
    processSegment w1eng 10 0 w1seg w1st =
      some { w1st with jls_state :=
        ⟨tblInsert w1st.jls_state.upstream_connections w1seg.addr
          { w1conn with to_upstream :=
            [upstream_udp_transmit w1up w1seg.buf] }⟩ }
    ∧ ({ w1st with engineOffers := [(w1seg2.addr, w1seg2.buf)] } : State).engineOffers =
        w1st.engineOffers ++ [(w1seg2.addr, w1seg2.buf)]
    ∧ processSegments w1eng 10 0 [w1seg, w1seg] w1st =
        some { w1st with jls_state :=
          ⟨tblInsert w1st.jls_state.upstream_connections w1addr
            { w1conn with to_upstream :=
              [w1seg, w1seg].map (fun s => upstream_udp_transmit w1conn.upstream_addr s.buf) }⟩ } := by
  refine ⟨?_, ?_, ?_⟩
  · exact (c1_forward_routing w1eng 10 0 w1seg w1st).1 w1conn (by decide)
  · exact (c1_forward_routing w1eng 10 0 w1seg2 w1st).2.1 (by decide)
      { w1st with engineOffers := [(w1seg2.addr, w1seg2.buf)] } (by decide)
  · exact (c1_forward_routing w1eng 10 0 w1seg w1st).2.2 w1addr w1conn [w1seg, w1seg]
      (by decide) (by decide)

/-! ### Claim C3: admission control on engine Responses -/

/-- C3. In the receive pipeline, a Response decision from the protocol
engine is enqueued onto `outgoing` exactly when the byte counter is below
the cap at the moment of the check, increasing the counter by the payload
length (`satAdd` is exact below the usize bound, so the cap can be overshot
by one transmit); at or above the cap the transmit is dropped silently: no
error and no state change besides the ghost offer log.  Instances: at
counter `maxQ - 1` a length-2 Response is accepted, and once the counter is
at or above `maxQ` every Response is dropped. -/
theorem c3_response_admission (engine : Segment → Option DatagramEvent)
    (maxQ now : Nat) (seg : Segment) (st : State) (t : ProtoTransmit)
    (hmiss : tblLookup st.jls_state.upstream_connections seg.addr = none)
    (hE : engine seg = some (.response t)) :
    (st.transmit_queue_contents_len < maxQ →
      processSegment engine maxQ now seg st =
        some { st with
          engineOffers := st.engineOffers ++ [(seg.addr, seg.buf)]
          outgoing := st.outgoing ++ [udp_transmit t]
          transmit_queue_contents_len :=
            satAdd st.transmit_queue_contents_len t.contents.length })
    ∧ (st.transmit_queue_contents_len + t.contents.length ≤ USIZE_MAX →
        satAdd st.transmit_queue_contents_len t.contents.length =
          st.transmit_queue_contents_len + t.contents.length)
    ∧ (¬ st.transmit_queue_contents_len < maxQ →
      processSegment engine maxQ now seg st =
        some { st with engineOffers := st.engineOffers ++ [(seg.addr, seg.buf)] })
    ∧ (st.transmit_queue_contents_len = maxQ - 1 → 0 < maxQ → t.contents.length = 2 →
      processSegment engine maxQ now seg st =
        some { st with
          engineOffers := st.engineOffers ++ [(seg.addr, seg.buf)]
          outgoing := st.outgoing ++ [udp_transmit t]
          transmit_queue_contents_len := satAdd (maxQ - 1) 2 })
    ∧ (maxQ ≤ st.transmit_queue_contents_len →
      processSegment engine maxQ now seg st =
        some { st with engineOffers := st.engineOffers ++ [(seg.addr, seg.buf)] }) := by
  refine ⟨?_, ?_, ?_, ?_, ?_⟩
  · intro hq
    simp [processSegment, JlsState.handle_jls_forward, hmiss, hE, hq]
  · intro hb
    exact satAdd_eq_add hb
  · intro hq
    simp [processSegment, JlsState.handle_jls_forward, hmiss, hE, hq]
  · intro heq hpos hlen
    have hq : st.transmit_queue_contents_len < maxQ := by omega
    simp [processSegment, JlsState.handle_jls_forward, hmiss, hE, hq, heq, hlen]
    omega
  · intro hq
    have hq2 : ¬ st.transmit_queue_contents_len < maxQ := by omega
    simp [processSegment, JlsState.handle_jls_forward, hmiss, hE, hq2]

def w3t : ProtoTransmit := ⟨.v4 ⟨5, 5⟩, none, [1, 2], none, none⟩
def w3eng : Segment → Option DatagramEvent := fun _ => some (.response w3t)
def w3seg : Segment := ⟨.v4 ⟨3, 3⟩, none, none, [4]⟩
def w3st : State :=
  { outgoing := []
    incoming := []
    connections := ⟨[], none⟩
    ref_count := 1
    driver_lost := false
    ipv6 := false
    transmit_queue_contents_len := 9
    jls_state := ⟨[]⟩
    engineOffers := [] }
def w3stFull : State := { w3st with transmit_queue_contents_len := 11 }

/-- Witness for C3 at the boundary: counter 9 with cap 10 accepts a
length-2 Response (reaching 11), and counter 11 with cap 10 drops it. -/
theorem c3_response_admission_witness :
    processSegment w3eng 10 0 w3seg w3st =
      some { w3st with
        engineOffers := [(w3seg.addr, w3seg.buf)]
        outgoing := [udp_transmit w3t]
        transmit_queue_contents_len := satAdd (10 - 1) 2 }
    ∧ satAdd 9 2 = 9 + 2
    ∧ processSegment w3eng 10 0 w3seg w3stFull =
        some { w3stFull with engineOffers := [(w3seg.addr, w3seg.buf)] } := by
  refine ⟨?_, ?_, ?_⟩
  · exact (c3_response_admission w3eng 10 0 w3seg w3st w3t (by decide) rfl).2.2.2.1
      (by decide) (by decide) (by decide)
  · exact (c3_response_admission w3eng 10 0 w3seg w3st w3t (by decide) rfl).2.1 (by decide)
  · exact (c3_response_admission w3eng 10 0 w3seg w3stFull w3t (by decide) rfl).2.2.2.2
      (by decide)

/-! ### Claim C4: idle eviction in upstream_recv (the removal is commented out) -/

def c4addr : SocketAddr := .v4 ⟨1, 10⟩
def c4conn : JlsForwardConnection := ⟨.v4 ⟨2, 20⟩, [], 0⟩
def c4st : State :=
  { outgoing := []
    incoming := []
    connections := ⟨[], none⟩
    ref_count := 1
    driver_lost := false
    ipv6 := false
    transmit_queue_contents_len := 0
    jls_state := ⟨[(c4addr, c4conn)]⟩
    engineOffers := [] }
def c4o : Oracles :=
  { engine := fun _ => none
    handleEvent := fun _ _ => none
    recvPolls := []
    recvAllows := []
    events := []
    ioLoopBound := 0
    sendIters := []
    urPolls := [[.pending]]
    usPolls := [[]]
    now := 31
    maxQ := 100 }

/-- C4 (code bug).  A forward entry 31 s stale whose upstream recv returns
`Pending` is NOT removed: `upstream_recv` finishes with the entry still in
the table, and a whole driver cycle at that instant also leaves the entry in
place, because the eviction loop in the source is commented out. -/
theorem c4_upstream_recv_no_eviction :
    31 - c4conn.active_time > 30
    ∧ (upstream_recv 100 31 [[URecvPoll.pending]] c4st).1 = .ok false
    ∧ (upstream_recv 100 31 [[URecvPoll.pending]] c4st).2.jls_state.upstream_connections =
        [(c4addr, c4conn)]
    ∧ driver_poll c4o c4st = some (.pending, c4st) := by
  refine ⟨by decide, by decide, by decide, by decide⟩

/-! ### Claim C5: idle eviction in upstream_send (the test compares a
timestamp with itself) -/

def c5addr : SocketAddr := .v4 ⟨1, 11⟩
def c5tr : Transmit := ⟨.v4 ⟨2, 21⟩, none, [9], none, none⟩
def c5conn : JlsForwardConnection := ⟨.v4 ⟨2, 21⟩, [c5tr], 0⟩
def c5st : State :=
  { outgoing := []
    incoming := []
    connections := ⟨[], none⟩
    ref_count := 1
    driver_lost := false
    ipv6 := false
    transmit_queue_contents_len := 0
    jls_state := ⟨[(c5addr, c5conn)]⟩
    engineOffers := [] }

/-- C5 (code bug).  A forward entry 100 s stale whose upstream send returns
`Pending` is NOT removed at the end of `upstream_send`: the source evicts on
`active_time.duration_since(active_time) > 30`, a self-comparison that is
always zero. -/
theorem c5_upstream_send_no_idle_eviction :
    100 - c5conn.active_time > 30
    ∧ upstream_send 100 [[USendPoll.pending]] c5st = some (.ok false, c5st) := by
  refine ⟨by decide, by decide⟩

/-! ### Claim C6: per-entry upstream I/O errors -/

def c6addr : SocketAddr := .v4 ⟨1, 12⟩
def c6conn : JlsForwardConnection := ⟨.v4 ⟨2, 22⟩, [], 5⟩
def c6st : State :=
  { outgoing := []
    incoming := []
    connections := ⟨[], none⟩
    ref_count := 1
    driver_lost := false
    ipv6 := false
    transmit_queue_contents_len := 0
    jls_state := ⟨[(c6addr, c6conn)]⟩
    engineOffers := [] }
def c6o : Oracles :=
  { engine := fun _ => none
    handleEvent := fun _ _ => none
    recvPolls := []
    recvAllows := []
    events := []
    ioLoopBound := 0
    sendIters := []
    urPolls := [[.err 5]]
    usPolls := []
    now := 50
    maxQ := 100 }

/-- C6 counterexample.  A non-ConnectionReset error from an upstream socket
during `upstream_recv` does NOT evict the entry (it stays in the table), and
the bubbled error makes the driver poll return `Ready(Err)` — the driver
future completes, so the driver does not continue running. -/
theorem c6_counterexample :
    (upstream_recv 100 50 [[URecvPoll.err 5]] c6st).1 = .error 5
    ∧ tblContains
        (upstream_recv 100 50 [[URecvPoll.err 5]] c6st).2.jls_state.upstream_connections
        c6addr = true
    ∧ driver_poll c6o c6st = some (.ready (.error 5), c6st) := by
  refine ⟨by decide, by decide, by decide⟩

def c6oracle (e now maxQ : Nat) : Oracles :=
  { engine := fun _ => none
    handleEvent := fun _ _ => none
    recvPolls := []
    recvAllows := []
    events := []
    ioLoopBound := 0
    sendIters := []
    urPolls := [[.err e]]
    usPolls := []
    now := now
    maxQ := maxQ }

/-- C6 (amended).  For a singleton forward table: an upstream socket error
in `upstream_recv` is returned as the pipeline's error but the entry stays
in the table (the removal loop is commented out); an upstream socket error
in `upstream_send` evicts the entry and is returned as the pipeline's
error; and a bubbled upstream error propagates through `?` in the driver's
poll, which returns `Ready(Err(e))` — terminating the driver. -/
theorem c6_upstream_error_handling (now maxQ e : Nat) (k : SocketAddr)
    (conn : JlsForwardConnection) (st : State)
    (htbl : st.jls_state.upstream_connections = [(k, conn)]) :
    ((upstream_recv maxQ now [[URecvPoll.err e]] st).1 = .error e
      ∧ tblContains
          (upstream_recv maxQ now [[URecvPoll.err e]] st).2.jls_state.upstream_connections
          k = true)
    ∧ (conn.to_upstream ≠ [] →
        upstream_send now [[USendPoll.err e]] st =
          some (.error e, { st with jls_state := ⟨[]⟩ }))
    ∧ driver_poll (c6oracle e now maxQ) st =
        some (.ready (.error e), (upstream_recv maxQ now [[URecvPoll.err e]] st).2) := by
  have hur : upstream_recv maxQ now [[URecvPoll.err e]] st =
      (.error e, { st with jls_state := ⟨[(k, conn)]⟩ }) := by
    simp [upstream_recv, urGo, urEntry, htbl]
  refine ⟨⟨by rw [hur], by rw [hur]; simp [tblContains, tblLookup]⟩, ?_, ?_⟩
  · intro hne
    rcases hq : conn.to_upstream with _ | ⟨tr, rest⟩
    · exact absurd hq hne
    · simp [upstream_send, usGo, usEntry, htbl, hq, removeAll, tblErase]
  · simp [driver_poll, c6oracle, drive_recv, handle_events, drive_send, hur]

def c6waddr : SocketAddr := .v4 ⟨1, 13⟩
def c6wtr : Transmit := ⟨.v4 ⟨2, 23⟩, none, [8], none, none⟩
def c6wconn : JlsForwardConnection := ⟨.v4 ⟨2, 23⟩, [c6wtr], 5⟩
def c6wst : State :=
  { outgoing := []
    incoming := []
    connections := ⟨[], none⟩
    ref_count := 1
    driver_lost := false
    ipv6 := false
    transmit_queue_contents_len := 0
    jls_state := ⟨[(c6waddr, c6wconn)]⟩
    engineOffers := [] }

/-- Witness for the amended C6 at a concrete entry and error. -/
theorem c6_upstream_error_handling_witness :
    (upstream_recv 100 50 [[URecvPoll.err 7]] c6wst).1 = .error 7
    ∧ tblContains
        (upstream_recv 100 50 [[URecvPoll.err 7]] c6wst).2.jls_state.upstream_connections
        c6waddr = true
    ∧ upstream_send 50 [[USendPoll.err 7]] c6wst =
        some (.error 7, { c6wst with jls_state := ⟨[]⟩ })
    ∧ driver_poll (c6oracle 7 50 100) c6wst =
        some (.ready (.error 7), (upstream_recv 100 50 [[URecvPoll.err 7]] c6wst).2) := by
  have h := c6_upstream_error_handling 50 100 7 c6waddr c6wconn c6wst rfl
  exact ⟨h.1.1, h.1.2, h.2.1 (by decide), h.2.2⟩

/-! ### Claim C7: driver termination condition -/

/-- C7. When no pipeline returned an error, `EndpointDriver::poll` returns
`Ready(Ok(()))` precisely when, after the pipelines ran, `ref_count` is zero
and the connection registry is empty; otherwise it returns `Pending` — in
particular the driver stays alive while `ref_count` is zero but connections
remain, and terminates once the registry drains with `ref_count` zero. -/
theorem c7_driver_termination (o : Oracles) (st : State) (r : DriverPoll) (st' : State)
    (h : driver_poll o st = some (r, st'))
    (hne : ∀ e, r ≠ .ready (.error e)) :
    (r = .ready (.ok ()) ↔ (st'.ref_count = 0 ∧ st'.connections.is_empty = true))
    ∧ (r = .pending ↔ ¬(st'.ref_count = 0 ∧ st'.connections.is_empty = true)) := by
  rw [driver_poll] at h
  rcases h1 : drive_recv o.engine o.maxQ o.now o.recvPolls o.recvAllows st with _ | ⟨r1, st1⟩
  · rw [h1] at h; exact Option.noConfusion h
  rw [h1] at h
  rcases r1 with e1 | kg1
  · simp only [Option.some.injEq, Prod.mk.injEq] at h
    exact absurd h.1.symm (hne e1)
  dsimp only at h
  rcases h2 : handle_events o.handleEvent o.ioLoopBound o.events st1 with _ | ⟨kg2, st2⟩
  · rw [h2] at h; exact Option.noConfusion h
  rw [h2] at h
  dsimp only at h
  rcases h3 : drive_send o.sendIters st2 with _ | ⟨r3, st3⟩
  · rw [h3] at h; exact Option.noConfusion h
  rw [h3] at h
  rcases r3 with e3 | kg3
  · simp only [Option.some.injEq, Prod.mk.injEq] at h
    exact absurd h.1.symm (hne e3)
  dsimp only at h
  rcases h4 : upstream_recv o.maxQ o.now o.urPolls st3 with ⟨r4, st4⟩
  rw [h4] at h
  rcases r4 with e4 | kg4
  · simp only [Option.some.injEq, Prod.mk.injEq] at h
    exact absurd h.1.symm (hne e4)
  dsimp only at h
  rcases h5 : upstream_send o.now o.usPolls st4 with _ | ⟨r5, st5⟩
  · rw [h5] at h; exact Option.noConfusion h
  rw [h5] at h
  rcases r5 with e5 | kg5
  · simp only [Option.some.injEq, Prod.mk.injEq] at h
    exact absurd h.1.symm (hne e5)
  dsimp only at h
  by_cases hc : st5.ref_count = 0 ∧ st5.connections.is_empty = true
  · rw [if_pos hc] at h
    simp only [Option.some.injEq, Prod.mk.injEq] at h
    obtain ⟨hr, hs⟩ := h
    subst hs
    subst hr
    exact ⟨by simp [hc], by simp [hc]⟩
  · rw [if_neg hc] at h
    simp only [Option.some.injEq, Prod.mk.injEq] at h
    obtain ⟨hr, hs⟩ := h
    subst hs
    subst hr
    exact ⟨by simp [hc], by simp [hc]⟩

def c7o : Oracles :=
  { engine := fun _ => none
    handleEvent := fun _ _ => none
    recvPolls := []
    recvAllows := []
    events := []
    ioLoopBound := 0
    sendIters := []
    urPolls := []
    usPolls := []
    now := 0
    maxQ := 100 }
def c7wst : State :=
  { outgoing := []
    incoming := []
    connections := ⟨[(1, [])], none⟩
    ref_count := 0
    driver_lost := false
    ipv6 := false
    transmit_queue_contents_len := 0
    jls_state := ⟨[]⟩
    engineOffers := [] }

/-- Witness for C7: with `ref_count = 0` but one connection still
registered, the poll at the concrete oracles yields `Pending`. -/
theorem c7_driver_termination_witness :
    (DriverPoll.pending = .ready (.ok ()) ↔
      (c7wst.ref_count = 0 ∧ c7wst.connections.is_empty = true))
    ∧ (DriverPoll.pending = .pending ↔
      ¬(c7wst.ref_count = 0 ∧ c7wst.connections.is_empty = true)) :=
  c7_driver_termination c7o c7wst .pending c7wst (by decide) (fun _ hx => nomatch hx)

/-! ### Claim C8: close broadcast and post-close inserts -/

/-- C8. `close(c, r)` records the pair in the registry and appends a Close
event to every currently registered channel; and on any registry whose
`close` field holds `(c, r)`, an `insert` creates its fresh channel with
`Close(c, r)` already on it as the first (and only) event. -/
theorem c8_close_broadcast_insert (st : State) (c : Nat) (r : List Nat) :
    ((State.close st c r).connections.close = some (c, r))
    ∧ ((State.close st c r).connections.senders =
        st.connections.senders.map
          (fun p => (p.1, p.2 ++ [ConnectionEvent.close c r])))
    ∧ (∀ s : ConnectionSet, s.close = some (c, r) → ∀ h,
        (s.insert h).2 = [ConnectionEvent.close c r]
        ∧ tblLookup (s.insert h).1.senders h = some [ConnectionEvent.close c r]) := by
  refine ⟨rfl, rfl, ?_⟩
  intro s hs h
  constructor
  · simp [ConnectionSet.insert, hs]
  · simp [ConnectionSet.insert, hs, tblLookup_insert_self]

def c8st : State :=
  { outgoing := []
    incoming := []
    connections := ⟨[(3, [ConnectionEvent.ping])], none⟩
    ref_count := 1
    driver_lost := false
    ipv6 := false
    transmit_queue_contents_len := 0
    jls_state := ⟨[]⟩
    engineOffers := [] }

/-- Witness for C8: after `close(7, [1])`, inserting connection 4 yields a
channel whose first event is `Close(7, [1])`. -/
theorem c8_close_broadcast_insert_witness :
    ((State.close c8st 7 [1]).connections.insert 4).2 = [ConnectionEvent.close 7 [1]]
    ∧ tblLookup ((State.close c8st 7 [1]).connections.insert 4).1.senders 4 =
        some [ConnectionEvent.close 7 [1]] :=
  (c8_close_broadcast_insert c8st 7 [1]).2.2
    (State.close c8st 7 [1]).connections
    (c8_close_broadcast_insert c8st 7 [1]).1 4

/-! ### Claim C9: connect / connect_with error cases -/

/-- C9. `connect_with` returns EndpointStopping when the driver is lost,
InvalidRemoteAddress for an IPv6 target on a non-IPv6 socket, propagates
the protocol engine's connect error unchanged, and on success registers the
new connection and returns it; `connect` without a default client config
returns NoDefaultClientConfig. -/
theorem c9_connect_errors (ec : SocketAddr → Except ConnectError Nat)
    (st : State) (addr : SocketAddr) :
    (st.driver_lost = true → connect_with ec st addr = .error .endpointStopping)
    ∧ (st.driver_lost = false → addr.is_ipv6 = true → st.ipv6 = false →
        connect_with ec st addr = .error (.invalidRemoteAddress addr))
    ∧ (∀ e, st.driver_lost = false → (addr.is_ipv6 && !st.ipv6) = false →
        ec (if st.ipv6 then SocketAddr.v6 (ensure_ipv6 addr) else addr) = .error e →
        connect_with ec st addr = .error e)
    ∧ (∀ ch, st.driver_lost = false → (addr.is_ipv6 && !st.ipv6) = false →
        ec (if st.ipv6 then SocketAddr.v6 (ensure_ipv6 addr) else addr) = .ok ch →
        connect_with ec st addr =
          .ok (ch, { st with connections := (st.connections.insert ch).1 })
        ∧ tblContains
            ({ st with connections := (st.connections.insert ch).1 }).connections.senders
            ch = true)
    ∧ connect none ec st addr = .error .noDefaultClientConfig := by
  refine ⟨?_, ?_, ?_, ?_, rfl⟩
  · intro hd
    simp [connect_with, hd]
  · intro hd h6 hi
    simp [connect_with, hd, h6, hi]
  · intro e hd hb hec
    simp [connect_with, hd, hb, hec]
  · intro ch hd hb hec
    constructor
    · simp [connect_with, hd, hb, hec]
    · simp [tblContains, ConnectionSet.insert, tblLookup_insert_self]

def c9ecErr : SocketAddr → Except ConnectError Nat := fun _ => .error (.other 3)
def c9ecOk : SocketAddr → Except ConnectError Nat := fun _ => .ok 5
def c9st : State :=
  { outgoing := []
    incoming := []
    connections := ⟨[], none⟩
    ref_count := 1
    driver_lost := false
    ipv6 := false
    transmit_queue_contents_len := 0
    jls_state := ⟨[]⟩
    engineOffers := [] }
def c9stLost : State := { c9st with driver_lost := true }
def c9addr4 : SocketAddr := .v4 ⟨10, 443⟩
def c9addr6 : SocketAddr := .v6 ⟨77, 443, 0, 0⟩

/-- Witness for C9 exercising all five cases at concrete inputs. -/
theorem c9_connect_errors_witness :
    connect_with c9ecOk c9stLost c9addr4 = .error .endpointStopping
    ∧ connect_with c9ecOk c9st c9addr6 = .error (.invalidRemoteAddress c9addr6)
    ∧ connect_with c9ecErr c9st c9addr4 = .error (.other 3)
    ∧ connect_with c9ecOk c9st c9addr4 =
        .ok (5, { c9st with connections := (c9st.connections.insert 5).1 })
    ∧ connect none c9ecOk c9st c9addr4 = .error .noDefaultClientConfig := by
  refine ⟨?_, ?_, ?_, ?_, ?_⟩
  · exact (c9_connect_errors c9ecOk c9stLost c9addr4).1 rfl
  · exact (c9_connect_errors c9ecOk c9st c9addr6).2.1 rfl rfl rfl
  · exact (c9_connect_errors c9ecErr c9st c9addr4).2.2.1 (.other 3) rfl (by decide) rfl
  · exact ((c9_connect_errors c9ecOk c9st c9addr4).2.2.2.1 5 rfl (by decide) rfl).1
  · exact (c9_connect_errors c9ecOk c9st c9addr4).2.2.2.2

/-! ### Claim C10: unwraps at the engine boundary -/

/-- C10. `handle_events` removes a drained connection's sender before
consulting the engine, so an engine follow-up for a drained connection hits
`unwrap` on an absent sender and panics; with no follow-up the removal
stands and processing continues.  In `drive_recv`, a `ConnectionEvent`
decision for a handle absent from the registry panics on the same
`unwrap`, while a registered handle is handled without panic. -/
theorem c10_engine_boundary_unwraps :
    (∀ (he : Nat → ProtoEvent → Option Nat) b ch (e : ProtoEvent) rest (st : State) f,
      e.drained = true → he ch e = some f →
      handle_events he (b + 1) ((ch, EndpointEvent.proto e) :: rest) st = none)
    ∧ (∀ (he : Nat → ProtoEvent → Option Nat) b ch (e : ProtoEvent) rest (st : State),
      e.drained = true → he ch e = none →
      handle_events he (b + 1) ((ch, EndpointEvent.proto e) :: rest) st =
        handle_events he b rest
          { st with connections :=
            { st.connections with senders := tblErase st.connections.senders ch } })
    ∧ (∀ engine maxQ now (seg : Segment) (st : State) ch ev,
      tblLookup st.jls_state.upstream_connections seg.addr = none →
      engine seg = some (.connectionEvent ch ev) →
      ((tblLookup st.connections.senders ch = none →
          processSegment engine maxQ now seg st = none)
        ∧ (∀ chan, tblLookup st.connections.senders ch = some chan →
            (processSegment engine maxQ now seg st).isSome = true))) := by
  refine ⟨?_, ?_, ?_⟩
  · intro he b ch e rest st f hd hf
    simp [handle_events, hd, hf, tblLookup_erase_self]
  · intro he b ch e rest st hd hn
    simp [handle_events, hd, hn]
  · intro engine maxQ now seg st ch ev hmiss hE
    constructor
    · intro hL
      simp [processSegment, JlsState.handle_jls_forward, hmiss, hE, hL]
    · intro chan hL
      simp [processSegment, JlsState.handle_jls_forward, hmiss, hE, hL]

def c10he : Nat → ProtoEvent → Option Nat := fun _ _ => some 9
def c10e : ProtoEvent := ⟨true, 0⟩
def c10st : State :=
  { outgoing := []
    incoming := []
    connections := ⟨[(2, [])], none⟩
    ref_count := 1
    driver_lost := false
    ipv6 := false
    transmit_queue_contents_len := 0
    jls_state := ⟨[]⟩
    engineOffers := [] }
def c10eng : Segment → Option DatagramEvent := fun _ => some (.connectionEvent 2 4)
def c10engAbsent : Segment → Option DatagramEvent := fun _ => some (.connectionEvent 8 4)
def c10seg : Segment := ⟨.v4 ⟨6, 6⟩, none, none, [5]⟩

/-- Witness for C10: a drained event for connection 2 with an engine
follow-up panics; a ConnectionEvent for unregistered handle 8 panics; a
ConnectionEvent for registered handle 2 does not. -/
theorem c10_engine_boundary_unwraps_witness :
    handle_events c10he 1 [(2, EndpointEvent.proto c10e)] c10st = none
    ∧ processSegment c10engAbsent 10 0 c10seg c10st = none
    ∧ (processSegment c10eng 10 0 c10seg c10st).isSome = true := by
  refine ⟨?_, ?_, ?_⟩
  · exact c10_engine_boundary_unwraps.1 c10he 0 2 c10e [] c10st 9 rfl rfl
  · exact (c10_engine_boundary_unwraps.2.2 c10engAbsent 10 0 c10seg c10st 8 4
      (by decide) rfl).1 (by decide)
  · exact (c10_engine_boundary_unwraps.2.2 c10eng 10 0 c10seg c10st 2 4
      (by decide) rfl).2 [] (by decide)

/-! ### Claim C2: the outgoing-bytes invariant -/

/-- The spec invariant: the byte counter equals the sum of the payload
lengths of the transmits currently in `outgoing`. -/
def OutgoingInv (st : State) : Prop :=
  st.transmit_queue_contents_len = sumLens st.outgoing

/-- Payload length a segment can contribute via a Response decision. -/
def respLen (engine : Segment → Option DatagramEvent) (seg : Segment) : Nat :=
  match engine seg with
  | some (.response t) => t.contents.length
  | _ => 0

/-- Total Response budget of a batch of segments. -/
def segsBudget (engine : Segment → Option DatagramEvent) (segs : List Segment) : Nat :=
  (segs.map (respLen engine)).sum

/-- Total Response budget of a receive-poll oracle. -/
def recvBudget (engine : Segment → Option DatagramEvent) (polls : List DRecvPoll) : Nat :=
  (polls.map (fun p => match p with
    | DRecvPoll.ready segs => segsBudget engine segs
    | _ => 0)).sum

/-- Payload length a worker event can contribute. -/
def eventBudget : Nat × EndpointEvent → Nat
  | (_, .transmit t) => t.contents.length
  | _ => 0

/-- Total transmit budget of the worker-event oracle. -/
def eventsBudget (evs : List (Nat × EndpointEvent)) : Nat :=
  (evs.map eventBudget).sum

/-- Bytes one upstream recv poll can relay. -/
def urPollBudget : URecvPoll → Nat
  | .ready segs => (segs.map List.length).sum
  | _ => 0

/-- Bytes one entry's upstream recv oracle can relay. -/
def urEntryBudget (polls : List URecvPoll) : Nat :=
  (polls.map urPollBudget).sum

/-- Bytes the whole upstream recv oracle can relay. -/
def urBudget (polls : List (List URecvPoll)) : Nat :=
  (polls.map urEntryBudget).sum

/-- Total bytes one driver poll can add to `outgoing`. -/
def pollBudget (o : Oracles) : Nat :=
  recvBudget o.engine o.recvPolls + eventsBudget o.events + urBudget o.urPolls

/-- One segment preserves the invariant and grows the queue by at most its
Response budget (assuming the counter does not saturate). -/
theorem processSegment_inv (engine : Segment → Option DatagramEvent) (maxQ now : Nat)
    (seg : Segment) (st st' : State) (hInv : OutgoingInv st)
    (hb : sumLens st.outgoing + respLen engine seg ≤ USIZE_MAX)
    (h : processSegment engine maxQ now seg st = some st') :
    OutgoingInv st' ∧ sumLens st'.outgoing ≤ sumLens st.outgoing + respLen engine seg := by
  unfold processSegment at h
  rcases hT : st.jls_state.handle_jls_forward seg.buf seg.addr with ⟨hit, js⟩
  rw [hT] at h
  rcases hit
  · dsimp only at h
    rcases hE : engine seg with _ | de
    · rw [hE] at h
      simp only [Option.some.injEq] at h
      subst h
      exact ⟨hInv, Nat.le_add_right _ _⟩
    · rw [hE] at h
      cases de with
      | newConnection ch =>
        simp only [ConnectionSet.insert, Option.some.injEq] at h
        subst h
        exact ⟨hInv, Nat.le_add_right _ _⟩
      | connectionEvent ch ev =>
        rcases hL : tblLookup st.connections.senders ch with _ | chan
        · simp only [hL] at h
          exact Option.noConfusion h
        · simp only [hL, Option.some.injEq] at h
          subst h
          exact ⟨hInv, Nat.le_add_right _ _⟩
      | response t =>
        dsimp only at h
        have hR : respLen engine seg = t.contents.length := by simp [respLen, hE]
        by_cases hq : st.transmit_queue_contents_len < maxQ
        · rw [if_pos hq] at h
          simp only [Option.some.injEq] at h
          subst h
          have hlen : st.transmit_queue_contents_len + t.contents.length ≤ USIZE_MAX := by
            rw [hInv]
            omega
          constructor
          · show satAdd st.transmit_queue_contents_len t.contents.length =
              sumLens (st.outgoing ++ [udp_transmit t])
            rw [satAdd_eq_add hlen, hInv]
            simp [udp_transmit]
          · simp [udp_transmit, hR]
        · rw [if_neg hq] at h
          simp only [Option.some.injEq] at h
          subst h
          exact ⟨hInv, Nat.le_add_right _ _⟩
      | newForward ch ra up hello =>
        rcases up with _ | ua
        · simp only [Option.some.injEq] at h
          subst h
          exact ⟨hInv, Nat.le_add_right _ _⟩
        · simp only [Option.some.injEq] at h
          subst h
          exact ⟨hInv, Nat.le_add_right _ _⟩
  · dsimp only at h
    simp only [Option.some.injEq] at h
    subst h
    exact ⟨hInv, Nat.le_add_right _ _⟩

/-- A batch of segments preserves the invariant within its budget. -/
theorem processSegments_inv (engine : Segment → Option DatagramEvent) (maxQ now : Nat) :
    ∀ (segs : List Segment) (st st' : State), OutgoingInv st →
      sumLens st.outgoing + segsBudget engine segs ≤ USIZE_MAX →
      processSegments engine maxQ now segs st = some st' →
      OutgoingInv st' ∧ sumLens st'.outgoing ≤ sumLens st.outgoing + segsBudget engine segs := by
  intro segs
  induction segs with
  | nil =>
    intro st st' hInv hb h
    simp only [processSegments, Option.some.injEq] at h
    subst h
    exact ⟨hInv, Nat.le_add_right _ _⟩
  | cons s rest ih =>
    intro st st' hInv hb h
    have hbc : segsBudget engine (s :: rest) = respLen engine s + segsBudget engine rest := by
      simp [segsBudget]
    simp only [processSegments] at h
    rcases hp : processSegment engine maxQ now s st with _ | st2
    · rw [hp] at h
      exact Option.noConfusion h
    · rw [hp] at h
      dsimp only at h
      obtain ⟨hInv2, hle2⟩ := processSegment_inv engine maxQ now s st st2 hInv (by omega) hp
      obtain ⟨hInv3, hle3⟩ := ih st2 st' hInv2 (by omega) h
      exact ⟨hInv3, by omega⟩

/-- `drive_recv` preserves the invariant within its Response budget. -/
theorem drive_recv_inv (engine : Segment → Option DatagramEvent) (maxQ now : Nat) :
    ∀ (polls : List DRecvPoll) (allows : List Bool) (st : State)
      (r : Except Nat Bool) (st' : State),
      OutgoingInv st →
      sumLens st.outgoing + recvBudget engine polls ≤ USIZE_MAX →
      drive_recv engine maxQ now polls allows st = some (r, st') →
      OutgoingInv st' ∧ sumLens st'.outgoing ≤ sumLens st.outgoing + recvBudget engine polls := by
  intro polls
  induction polls with
  | nil =>
    intro allows st r st' hInv hb h
    simp only [drive_recv, Option.some.injEq, Prod.mk.injEq] at h
    obtain ⟨_, h2⟩ := h
    subst h2
    exact ⟨hInv, Nat.le_add_right _ _⟩
  | cons p rest ih =>
    intro allows st r st' hInv hb h
    cases p with
    | pending =>
      simp only [drive_recv, Option.some.injEq, Prod.mk.injEq] at h
      obtain ⟨_, h2⟩ := h
      subst h2
      exact ⟨hInv, Nat.le_add_right _ _⟩
    | errReset =>
      have hbr : recvBudget engine (DRecvPoll.errReset :: rest) = recvBudget engine rest := by
        simp [recvBudget]
      simp only [drive_recv] at h
      obtain ⟨hI2, hl2⟩ := ih allows st r st' hInv (by omega) h
      exact ⟨hI2, by omega⟩
    | err e =>
      simp only [drive_recv, Option.some.injEq, Prod.mk.injEq] at h
      obtain ⟨_, h2⟩ := h
      subst h2
      exact ⟨hInv, Nat.le_add_right _ _⟩
    | ready segs =>
      have hbr : recvBudget engine (DRecvPoll.ready segs :: rest) =
          segsBudget engine segs + recvBudget engine rest := by
        simp [recvBudget]
      simp only [drive_recv] at h
      rcases hp : processSegments engine maxQ now segs st with _ | st2
      · rw [hp] at h
        exact Option.noConfusion h
      · rw [hp] at h
        dsimp only at h
        obtain ⟨hInv2, hle2⟩ := processSegments_inv engine maxQ now segs st st2 hInv (by omega) hp
        rcases allows with _ | ⟨a, arest⟩
        · obtain ⟨hI3, hl3⟩ := ih [] st2 r st' hInv2 (by omega) h
          exact ⟨hI3, by omega⟩
        · rcases a
          · simp only [Option.some.injEq, Prod.mk.injEq] at h
            obtain ⟨_, h2⟩ := h
            subst h2
            exact ⟨hInv2, by omega⟩
          · obtain ⟨hI3, hl3⟩ := ih arest st2 r st' hInv2 (by omega) h
            exact ⟨hI3, by omega⟩

/-- `handle_events` preserves the invariant within its transmit budget. -/
theorem handle_events_inv (he : Nat → ProtoEvent → Option Nat) :
    ∀ (b : Nat) (evs : List (Nat × EndpointEvent)) (st : State) (kg : Bool) (st' : State),
      OutgoingInv st →
      sumLens st.outgoing + eventsBudget evs ≤ USIZE_MAX →
      handle_events he b evs st = some (kg, st') →
      OutgoingInv st' ∧ sumLens st'.outgoing ≤ sumLens st.outgoing + eventsBudget evs := by
  intro b
  induction b with
  | zero =>
    intro evs st kg st' hInv hb h
    simp only [handle_events, Option.some.injEq, Prod.mk.injEq] at h
    obtain ⟨_, h2⟩ := h
    subst h2
    exact ⟨hInv, Nat.le_add_right _ _⟩
  | succ b ih =>
    intro evs st kg st' hInv hb h
    rcases evs with _ | ⟨⟨ch, ev⟩, rest⟩
    · simp only [handle_events, Option.some.injEq, Prod.mk.injEq] at h
      obtain ⟨_, h2⟩ := h
      subst h2
      exact ⟨hInv, Nat.le_add_right _ _⟩
    · cases ev with
      | proto e =>
        have hbr : eventsBudget ((ch, EndpointEvent.proto e) :: rest) = eventsBudget rest := by
          simp [eventsBudget, eventBudget]
        simp only [handle_events] at h
        rcases hdb : e.drained
        · rw [if_neg (by simp [hdb])] at h
          rcases hhe : he ch e with _ | f
          · rw [hhe] at h
            dsimp only at h
            obtain ⟨hI3, hl3⟩ := ih rest st kg st' hInv (by omega) h
            exact ⟨hI3, by omega⟩
          · rw [hhe] at h
            dsimp only at h
            rcases hL : tblLookup st.connections.senders ch with _ | chan
            · rw [hL] at h
              exact Option.noConfusion h
            · rw [hL] at h
              dsimp only at h
              obtain ⟨hI3, hl3⟩ := ih rest _ kg st' (by exact hInv) (by dsimp only; omega) h
              dsimp only at hl3
              exact ⟨hI3, by omega⟩
        · rw [if_pos (by simp [hdb])] at h
          rcases hhe : he ch e with _ | f
          · rw [hhe] at h
            dsimp only at h
            obtain ⟨hI3, hl3⟩ := ih rest _ kg st' (by exact hInv) (by dsimp only; omega) h
            dsimp only at hl3
            exact ⟨hI3, by omega⟩
          · rw [hhe] at h
            dsimp only at h
            rcases hL : tblLookup (tblErase st.connections.senders ch) ch with _ | chan
            · rw [hL] at h
              exact Option.noConfusion h
            · rw [hL] at h
              dsimp only at h
              obtain ⟨hI3, hl3⟩ := ih rest _ kg st' (by exact hInv) (by dsimp only; omega) h
              dsimp only at hl3
              exact ⟨hI3, by omega⟩
      | transmit t =>
        have hbr : eventsBudget ((ch, EndpointEvent.transmit t) :: rest) =
            t.contents.length + eventsBudget rest := by
          simp [eventsBudget, eventBudget]
        simp only [handle_events] at h
        have hlen : st.transmit_queue_contents_len + t.contents.length ≤ USIZE_MAX := by
          rw [hInv]
          omega
        have hI2 : OutgoingInv { st with
            outgoing := st.outgoing ++ [udp_transmit t]
            transmit_queue_contents_len :=
              satAdd st.transmit_queue_contents_len t.contents.length } := by
          show satAdd st.transmit_queue_contents_len t.contents.length =
            sumLens (st.outgoing ++ [udp_transmit t])
          rw [satAdd_eq_add hlen, hInv]
          simp [udp_transmit]
        obtain ⟨hI3, hl3⟩ := ih rest _ kg st' hI2 (by simp [udp_transmit]; omega) h
        simp only [sumLens_append, sumLens_cons, sumLens_nil] at hl3
        have hut : (udp_transmit t).contents.length = t.contents.length := rfl
        exact ⟨hI3, by omega⟩

/-- `drive_send` preserves the invariant and never grows the queue. -/
theorem drive_send_inv :
    ∀ (iters : List (Bool × SendPoll)) (st : State) (r : Except Nat Bool) (st' : State),
      OutgoingInv st →
      drive_send iters st = some (r, st') →
      OutgoingInv st' ∧ sumLens st'.outgoing ≤ sumLens st.outgoing := by
  intro iters
  induction iters with
  | nil =>
    intro st r st' hInv h
    simp only [drive_send, Option.some.injEq, Prod.mk.injEq] at h
    obtain ⟨_, h2⟩ := h
    subst h2
    exact ⟨hInv, le_refl _⟩
  | cons ap rest ih =>
    obtain ⟨allow, p⟩ := ap
    intro st r st' hInv h
    simp only [drive_send] at h
    by_cases hemp : st.outgoing.isEmpty = true
    · rw [if_pos hemp] at h
      simp only [Option.some.injEq, Prod.mk.injEq] at h
      obtain ⟨_, h2⟩ := h
      subst h2
      exact ⟨hInv, le_refl _⟩
    · rw [if_neg hemp] at h
      rcases allow
      · rw [if_pos (show (!false) = true from rfl)] at h
        simp only [Option.some.injEq, Prod.mk.injEq] at h
        obtain ⟨_, h2⟩ := h
        subst h2
        exact ⟨hInv, le_refl _⟩
      · rw [if_neg (show ¬((!true) = true) from by simp)] at h
        cases p with
        | pending =>
          simp only [Option.some.injEq, Prod.mk.injEq] at h
          obtain ⟨_, h2⟩ := h
          subst h2
          exact ⟨hInv, le_refl _⟩
        | err e =>
          simp only [Option.some.injEq, Prod.mk.injEq] at h
          obtain ⟨_, h2⟩ := h
          subst h2
          exact ⟨hInv, le_refl _⟩
        | ready n =>
          dsimp only at h
          by_cases hn : n ≤ st.outgoing.length
          · rw [if_pos hn] at h
            have hsplit : sumLens (st.outgoing.take n) + sumLens (st.outgoing.drop n) =
                sumLens st.outgoing := by
              rw [← sumLens_append, List.take_append_drop]
            have hI2 : OutgoingInv { st with
                outgoing := st.outgoing.drop n
                transmit_queue_contents_len :=
                  st.transmit_queue_contents_len - sumLens (st.outgoing.take n) } := by
              show st.transmit_queue_contents_len - sumLens (st.outgoing.take n) =
                sumLens (st.outgoing.drop n)
              rw [hInv]
              omega
            obtain ⟨hI3, hl3⟩ := ih _ r st' hI2 h
            dsimp only at hl3
            exact ⟨hI3, by omega⟩
          · rw [if_neg hn] at h
            exact Option.noConfusion h

/-- Relaying one upstream batch preserves the counter identity within its
byte budget. -/
theorem urSegs_inv (maxQ : Nat) (remote : SocketAddr) :
    ∀ (segs : List (List Nat)) (outg : List Transmit) (tq : Nat),
      tq = sumLens outg →
      sumLens outg + (segs.map List.length).sum ≤ USIZE_MAX →
      ((urSegs maxQ remote segs outg tq).2 = sumLens (urSegs maxQ remote segs outg tq).1
        ∧ sumLens (urSegs maxQ remote segs outg tq).1 ≤
            sumLens outg + (segs.map List.length).sum) := by
  intro segs
  induction segs with
  | nil =>
    intro outg tq hI hb
    exact ⟨by simpa [urSegs] using hI, by simp [urSegs]⟩
  | cons seg rest ih =>
    intro outg tq hI hb
    have hm : ((seg :: rest).map List.length).sum =
        seg.length + (rest.map List.length).sum := by simp
    by_cases hq : tq < maxQ
    · simp only [urSegs, if_pos hq]
      have hsat : satAdd tq seg.length = tq + seg.length := by
        apply satAdd_eq_add
        rw [hI]
        omega
      rw [hsat]
      have hl : sumLens (outg ++
          [{ destination := remote, contents := seg, ecn := none,
             segment_size := none, src_ip := none : Transmit }]) =
          sumLens outg + seg.length := by simp
      obtain ⟨h1, h2⟩ := ih (outg ++
          [{ destination := remote, contents := seg, ecn := none,
             segment_size := none, src_ip := none : Transmit }])
        (tq + seg.length) (by rw [hI, hl]) (by rw [hl]; omega)
      exact ⟨h1, by omega⟩
    · simp only [urSegs, if_neg hq]
      obtain ⟨h1, h2⟩ := ih outg tq hI (by omega)
      exact ⟨h1, by omega⟩

/-- One entry's upstream recv loop preserves the counter identity within
its byte budget. -/
theorem urEntry_inv (maxQ now : Nat) (remote : SocketAddr) :
    ∀ (polls : List URecvPoll) (conn : JlsForwardConnection)
      (outg : List Transmit) (tq : Nat),
      tq = sumLens outg →
      sumLens outg + urEntryBudget polls ≤ USIZE_MAX →
      ((urEntry maxQ now remote polls conn outg tq).2.2.1 =
          sumLens (urEntry maxQ now remote polls conn outg tq).2.1
        ∧ sumLens (urEntry maxQ now remote polls conn outg tq).2.1 ≤
            sumLens outg + urEntryBudget polls) := by
  intro polls
  induction polls with
  | nil =>
    intro conn outg tq hI hb
    exact ⟨by simpa [urEntry] using hI, by simp [urEntry]⟩
  | cons p rest ih =>
    intro conn outg tq hI hb
    cases p with
    | ready segs =>
      have hbr : urEntryBudget (URecvPoll.ready segs :: rest) =
          (segs.map List.length).sum + urEntryBudget rest := by
        simp [urEntryBudget, urPollBudget]
      obtain ⟨hs1, hs2⟩ := urSegs_inv maxQ remote segs outg tq hI (by omega)
      simp only [urEntry]
      rcases hu : urSegs maxQ remote segs outg tq with ⟨outg2, tq2⟩
      rw [hu] at hs1 hs2
      dsimp only at hs1 hs2 ⊢
      obtain ⟨h1, h2⟩ := ih { conn with active_time := now } outg2 tq2 hs1 (by omega)
      exact ⟨h1, by omega⟩
    | pending =>
      exact ⟨by simpa [urEntry] using hI, by simp [urEntry]⟩
    | errReset =>
      have hbr : urEntryBudget (URecvPoll.errReset :: rest) = urEntryBudget rest := by
        simp [urEntryBudget, urPollBudget]
      simp only [urEntry]
      obtain ⟨h1, h2⟩ := ih conn outg tq hI (by omega)
      exact ⟨h1, by omega⟩
    | err e =>
      exact ⟨by simpa [urEntry] using hI, by simp [urEntry]⟩

/-- The whole upstream recv sweep preserves the counter identity within
its byte budget. -/
theorem urGo_inv (maxQ now : Nat) :
    ∀ (entries : List (SocketAddr × JlsForwardConnection)) (polls : List (List URecvPoll))
      (outg : List Transmit) (tq : Nat) (le : Option Nat),
      tq = sumLens outg →
      sumLens outg + urBudget polls ≤ USIZE_MAX →
      ((urGo maxQ now entries polls outg tq le).2.2.1 =
          sumLens (urGo maxQ now entries polls outg tq le).2.1
        ∧ sumLens (urGo maxQ now entries polls outg tq le).2.1 ≤
            sumLens outg + urBudget polls) := by
  intro entries
  induction entries with
  | nil =>
    intro polls outg tq le hI hb
    exact ⟨by simpa [urGo] using hI, by simp [urGo]⟩
  | cons ent rest ih =>
    obtain ⟨remote, conn⟩ := ent
    intro polls outg tq le hI hb
    have hbud : urEntryBudget (polls.headD []) + urBudget polls.tail ≤ urBudget polls := by
      cases polls <;> simp [urBudget, urEntryBudget]
    obtain ⟨h1, h2⟩ := urEntry_inv maxQ now remote (polls.headD []) conn outg tq hI (by omega)
    simp only [urGo]
    obtain ⟨h3, h4⟩ := ih polls.tail
      (urEntry maxQ now remote (polls.headD []) conn outg tq).2.1
      (urEntry maxQ now remote (polls.headD []) conn outg tq).2.2.1
      (match (urEntry maxQ now remote (polls.headD []) conn outg tq).2.2.2.1 with
        | some e => some e
        | none => le)
      h1 (by omega)
    exact ⟨h3, by omega⟩

/-- `upstream_recv` preserves the invariant within its byte budget. -/
theorem upstream_recv_inv (maxQ now : Nat) (polls : List (List URecvPoll)) (st : State)
    (hI : OutgoingInv st)
    (hb : sumLens st.outgoing + urBudget polls ≤ USIZE_MAX) :
    OutgoingInv (upstream_recv maxQ now polls st).2
    ∧ sumLens (upstream_recv maxQ now polls st).2.outgoing ≤
        sumLens st.outgoing + urBudget polls := by
  obtain ⟨h1, h2⟩ := urGo_inv maxQ now st.jls_state.upstream_connections polls
    st.outgoing st.transmit_queue_contents_len none hI hb
  unfold upstream_recv
  rcases hg : urGo maxQ now st.jls_state.upstream_connections polls st.outgoing
      st.transmit_queue_contents_len none with ⟨tbl, outg, tq, le, rem⟩
  rw [hg] at h1 h2
  dsimp only at h1 h2 ⊢
  rcases le with _ | e
  · exact ⟨h1, h2⟩
  · exact ⟨h1, h2⟩

/-- `upstream_send` never touches the queue or the counter. -/
theorem upstream_send_fields (now : Nat) (polls : List (List USendPoll)) (st : State)
    (r : Except Nat Bool) (st' : State)
    (h : upstream_send now polls st = some (r, st')) :
    st'.outgoing = st.outgoing
    ∧ st'.transmit_queue_contents_len = st.transmit_queue_contents_len := by
  unfold upstream_send at h
  rcases hg : usGo now st.jls_state.upstream_connections polls with _ | ⟨tbl, le, rem⟩
  · rw [hg] at h
    exact Option.noConfusion h
  · rw [hg] at h
    dsimp only at h
    rcases le with _ | e
    · simp only [Option.some.injEq, Prod.mk.injEq] at h
      obtain ⟨_, h2⟩ := h
      subst h2
      exact ⟨rfl, rfl⟩
    · simp only [Option.some.injEq, Prod.mk.injEq] at h
      obtain ⟨_, h2⟩ := h
      subst h2
      exact ⟨rfl, rfl⟩

/-- C2. The invariant `transmit_queue_contents_len = Σ payload lengths of
outgoing` is preserved, within the poll's saturation budget, by a whole
driver poll (every enqueue in drive_recv, handle_events and upstream_recv
adds the payload length; every drain of `n` transmits in drive_send
subtracts exactly their total), and by the API operations `close` and
`connect_with`, which never touch the queue. -/
theorem c2_outgoing_bytes_invariant (o : Oracles) (st : State) :
    (∀ r st', OutgoingInv st → sumLens st.outgoing + pollBudget o ≤ USIZE_MAX →
      driver_poll o st = some (r, st') → OutgoingInv st')
    ∧ (∀ c rs, OutgoingInv st → OutgoingInv (State.close st c rs))
    ∧ (∀ ec addr ch st', OutgoingInv st →
        connect_with ec st addr = .ok (ch, st') → OutgoingInv st') := by
  refine ⟨?_, ?_, ?_⟩
  · intro r st' hInv hb h
    have hpb : pollBudget o =
        recvBudget o.engine o.recvPolls + eventsBudget o.events + urBudget o.urPolls := rfl
    rw [driver_poll] at h
    rcases h1 : drive_recv o.engine o.maxQ o.now o.recvPolls o.recvAllows st with _ | ⟨r1, st1⟩
    · rw [h1] at h
      exact Option.noConfusion h
    rw [h1] at h
    obtain ⟨hI1, hl1⟩ := drive_recv_inv o.engine o.maxQ o.now o.recvPolls o.recvAllows st
      r1 st1 hInv (by omega) h1
    rcases r1 with e1 | kg1
    · simp only [Option.some.injEq, Prod.mk.injEq] at h
      obtain ⟨_, hx⟩ := h
      subst hx
      exact hI1
    dsimp only at h
    rcases h2 : handle_events o.handleEvent o.ioLoopBound o.events st1 with _ | ⟨kg2, st2⟩
    · rw [h2] at h
      exact Option.noConfusion h
    rw [h2] at h
    dsimp only at h
    obtain ⟨hI2, hl2⟩ := handle_events_inv o.handleEvent o.ioLoopBound o.events st1
      kg2 st2 hI1 (by omega) h2
    rcases h3 : drive_send o.sendIters st2 with _ | ⟨r3, st3⟩
    · rw [h3] at h
      exact Option.noConfusion h
    rw [h3] at h
    obtain ⟨hI3, hl3⟩ := drive_send_inv o.sendIters st2 r3 st3 hI2 h3
    rcases r3 with e3 | kg3
    · simp only [Option.some.injEq, Prod.mk.injEq] at h
      obtain ⟨_, hx⟩ := h
      subst hx
      exact hI3
    dsimp only at h
    obtain ⟨hI4, hl4⟩ := upstream_recv_inv o.maxQ o.now o.urPolls st3 hI3 (by omega)
    rcases h4 : upstream_recv o.maxQ o.now o.urPolls st3 with ⟨r4, st4⟩
    rw [h4] at h hI4 hl4
    dsimp only at hI4 hl4
    rcases r4 with e4 | kg4
    · simp only [Option.some.injEq, Prod.mk.injEq] at h
      obtain ⟨_, hx⟩ := h
      subst hx
      exact hI4
    dsimp only at h
    rcases h5 : upstream_send o.now o.usPolls st4 with _ | ⟨r5, st5⟩
    · rw [h5] at h
      exact Option.noConfusion h
    rw [h5] at h
    obtain ⟨hf1, hf2⟩ := upstream_send_fields o.now o.usPolls st4 r5 st5 h5
    have hI5 : OutgoingInv st5 := by
      unfold OutgoingInv
      rw [hf1, hf2]
      exact hI4
    rcases r5 with e5 | kg5
    · simp only [Option.some.injEq, Prod.mk.injEq] at h
      obtain ⟨_, hx⟩ := h
      subst hx
      exact hI5
    dsimp only at h
    by_cases hc : st5.ref_count = 0 ∧ st5.connections.is_empty = true
    · rw [if_pos hc] at h
      simp only [Option.some.injEq, Prod.mk.injEq] at h
      obtain ⟨_, hx⟩ := h
      subst hx
      exact hI5
    · rw [if_neg hc] at h
      simp only [Option.some.injEq, Prod.mk.injEq] at h
      obtain ⟨_, hx⟩ := h
      subst hx
      exact hI5
  · intro c rs hInv
    exact hInv
  · intro ec addr ch st' hInv h
    unfold connect_with at h
    split at h
    · exact Except.noConfusion h
    split at h
    · exact Except.noConfusion h
    dsimp only at h
    rcases hec : ec (if st.ipv6 then SocketAddr.v6 (ensure_ipv6 addr) else addr) with e | ch2
    · rw [hec] at h
      exact Except.noConfusion h
    · rw [hec] at h
      dsimp only at h
      simp only [Except.ok.injEq, Prod.mk.injEq] at h
      obtain ⟨_, hx⟩ := h
      subst hx
      exact hInv

def c2o : Oracles :=
  { engine := fun _ => none
    handleEvent := fun _ _ => none
    recvPolls := []
    recvAllows := []
    events := []
    ioLoopBound := 0
    sendIters := []
    urPolls := []
    usPolls := []
    now := 0
    maxQ := 64 }
def c2st : State :=
  { outgoing := []
    incoming := []
    connections := ⟨[], none⟩
    ref_count := 1
    driver_lost := false
    ipv6 := false
    transmit_queue_contents_len := 0
    jls_state := ⟨[]⟩
    engineOffers := [] }
def c2ec : SocketAddr → Except ConnectError Nat := fun _ => .ok 4

/-- Witness for C2 at a concrete poll, close and connect. -/
theorem c2_outgoing_bytes_invariant_witness :
    OutgoingInv c2st
    ∧ OutgoingInv (State.close c2st 1 [2])
    ∧ OutgoingInv { c2st with connections := (c2st.connections.insert 4).1 } := by
  have h := c2_outgoing_bytes_invariant c2o c2st
  have hInv : OutgoingInv c2st := rfl
  refine ⟨h.1 .pending c2st hInv (by decide) (by decide),
    h.2.1 1 [2] hInv,
    h.2.2 c2ec (SocketAddr.v4 ⟨1, 1⟩) 4 _ hInv (by decide)⟩
